import Mathlib

/-!
Verification development for the pyggs geocaching harvester.

Shallow embedding of the fetch layer (`src/gcparser.py` class `Fetcher`,
`src/libs/gcparser.py` class `HTTPInterface`), the rate limiter
(`HTTPInterface.wait`), and the glyph-recognition pipeline
(`src/libs/gcparser.py` classes `Image`, `SeekCacheOCR`, `ImageDownloader`).

Network interaction is modelled by oracles: a function from the index of a
network exchange to the decoded body it yields (for page fetches), or to the
resulting cookie-name set (for login exchanges).  Randomness
(`random.randint`) is modelled by an oracle supplying one natural number per
draw, mapped surjectively onto the requested interval.  Wall-clock time is a
natural number of seconds.
-/

/-- Splitting a character list at every occurrence of a separator, Python
`str.split(sep)`: `splitChar` of `"N/N"` at `/` is `["N", "N"]`, and a list
without the separator yields a single chunk. -/
def splitCharGo (sep : Char) : List Char → List Char → List (List Char)
  | acc, [] => [acc.reverse]
  | acc, c :: rest =>
    if c = sep then acc.reverse :: splitCharGo sep [] rest
    else splitCharGo sep (c :: acc) rest

def splitChar (sep : Char) (cs : List Char) : List (List Char) :=
  splitCharGo sep [] cs

/-- Substring search: Python `s.find(pat) != -1`. -/
def findSub (cs pat : List Char) : Bool :=
  (List.range (cs.length + 1)).any (fun i => pat.isPrefixOf (cs.drop i))

/- ### Error kinds

`src/libs/gcparser.py` defines two exception classes: `CredentialsError`
("Raised on invalid credentials") and `LoginError` ("Raised when
geocaching.com login fails").  `src/gcparser.py` likewise has
`CredentialsException` and `LoginException`.  Both pairs are modelled by the
two constructors below. -/

inductive GCError where
  | credentials
  | login
deriving DecidableEq, Repr

/-- `Credentials = namedtuple("Credentials", "username password")`; absent
fields are `None` in the source, hence `Option`. -/
structure Credentials where
  username : Option String
  password : Option String
deriving DecidableEq, Repr

/-- One observable step of the fetch layer: a network download of a URL with
optional POST data, or a full re-authentication cycle (`_login` / `login`). -/
inductive FetchEvent where
  | download (url : String) (data : Option (List (String × String)))
  | loginCycle
deriving DecidableEq, Repr

/-- `HTTPInterface._check_login` (src/libs/gcparser.py:477-485): the body is
taken as logged-in unless some line contains the marker
`<p class="NotSignedInText">`. -/
def HTTPInterface.check_login (data : String) : Bool :=
  !((splitChar '\n' data.toList).any
    (fun line => findSub line "<p class=\"NotSignedInText\">".toList))

/-- `Fetcher.checkLogin` (src/gcparser.py:292-301): marker
`You are not logged in.`. -/
def Fetcher.checkLogin (data : String) : Bool :=
  !((splitChar '\n' data.toList).any
    (fun line => findSub line "You are not logged in.".toList))

/-- `HTTPInterface.request` (src/libs/gcparser.py:233-259).  `bodies k` is the
decoded text produced by the k-th issuance of this fetch.  The recursion
`return cls.request(url, auth=auth, data=data)` has no source-level bound, so
the model takes fuel; `none` marks fuel exhaustion.  The returned event list
records downloads (with their url/data) and re-authentication cycles in
order. -/
def HTTPInterface.request (fuel : Nat) (bodies : Nat → String) (k : Nat)
    (url : String) (auth : Bool) (data : Option (List (String × String)))
    (check : Bool) : Option (String × List FetchEvent) :=
  match fuel with
  | 0 => none
  | fuel + 1 =>
    let webpage := bodies k
    if auth && check && !(HTTPInterface.check_login webpage) then
      match HTTPInterface.request fuel bodies (k + 1) url auth data true with
      | none => none
      | some (res, evs) =>
          some (res, FetchEvent.download url data :: FetchEvent.loginCycle :: evs)
    else
      some (webpage, [FetchEvent.download url data])

/-- `Fetcher.fetch` (src/gcparser.py:87-119).  Same structure as
`HTTPInterface.request`, except that the source line 117 reads
`self.fetch(url, authenticate, data)` with no `return`: the re-issued fetch
is performed (its events happen) but its result is discarded and the original
body `web` is returned (line 119). -/
def Fetcher.fetch (fuel : Nat) (bodies : Nat → String) (k : Nat)
    (url : String) (authenticate : Bool) (data : Option (List (String × String)))
    (check : Bool) : Option (String × List FetchEvent) :=
  match fuel with
  | 0 => none
  | fuel + 1 =>
    let web := bodies k
    if authenticate && check && !(Fetcher.checkLogin web) then
      match Fetcher.fetch fuel bodies (k + 1) url authenticate data true with
      | none => none
      | some (_, evs) =>
          some (web, FetchEvent.download url data :: FetchEvent.loginCycle :: evs)
    else
      some (web, [FetchEvent.download url data])

/- ### Login flow

`cookieOracle k` gives the names of the cookies present in the jar after the
login POST of the k-th attempt; the success criterion is the presence of the
`userid` cookie (src/libs/gcparser.py:471-475, src/gcparser.py:284-289).
Each result carries the number of network requests the attempt performed. -/

/-- `HTTPInterface._login_attempt` (src/libs/gcparser.py:456-475).  With a
missing username or password it raises `LoginError` ("Cannot log in - no
credentials available") before any request; otherwise it issues two requests
(login page, then the form POST) and reports whether the `userid` cookie is
present. -/
def HTTPInterface.login_attempt (creds : Credentials)
    (cookieOracle : Nat → List String) (k : Nat) :
    Except GCError Bool × Nat :=
  if creds.username = none ∨ creds.password = none then
    (Except.error GCError.login, 0)
  else
    (Except.ok (decide ("userid" ∈ cookieOracle k)), 2)

/-- `Fetcher.loginAttempt` (src/gcparser.py:261-289).  Identical flow, but a
missing username or password raises the distinct `CredentialsException`. -/
def Fetcher.loginAttempt (creds : Credentials)
    (cookieOracle : Nat → List String) (k : Nat) :
    Except GCError Bool × Nat :=
  if creds.username = none ∨ creds.password = none then
    (Except.error GCError.credentials, 0)
  else
    (Except.ok (decide ("userid" ∈ cookieOracle k)), 2)

/-- `HTTPInterface._login` (src/libs/gcparser.py:446-454): one attempt, on
failure exactly one more, then `raise LoginError("Cannot log in.")`.  The
second component counts login attempts performed. -/
def HTTPInterface.login (creds : Credentials)
    (cookieOracle : Nat → List String) : Except GCError Unit × Nat :=
  match HTTPInterface.login_attempt creds cookieOracle 0 with
  | (Except.error e, _) => (Except.error e, 1)
  | (Except.ok true, _) => (Except.ok (), 1)
  | (Except.ok false, _) =>
    match HTTPInterface.login_attempt creds cookieOracle 1 with
    | (Except.error e, _) => (Except.error e, 2)
    | (Except.ok true, _) => (Except.ok (), 2)
    | (Except.ok false, _) => (Except.error GCError.login, 2)

/- ### Transient-failure retry -/

/-- The retry-wait sequence of `HTTPInterface.download_url`
(src/libs/gcparser.py:283-308): initial `retryTime` 1, then
`min(5*retryTime, 600)` on each further failure. -/
def backoff : Nat → Nat
  | 0 => 1
  | i + 1 => min (5 * backoff i) 600

/-- `HTTPInterface.download_url` (src/libs/gcparser.py:283-308).
`net i` is the outcome of the i-th network attempt (`none` = `IOError`).
On failure the code sleeps `retryTime` seconds and recurses with
`min(5*retryTime, 600)`; the model returns the payload together with the
list of waits performed, and takes fuel for the unbounded recursion. -/
def download_url (net : Nat → Option String) (fuel attempt retryTime : Nat) :
    Option (String × List Nat) :=
  match fuel with
  | 0 => none
  | fuel + 1 =>
    match net attempt with
    | some response => some (response, [])
    | none =>
      match download_url net fuel (attempt + 1) (min (5 * retryTime) 600) with
      | none => none
      | some (response, waits) => some (response, retryTime :: waits)

/- ### Rate limiter -/

/-- `random.randint(a, b)` modelled by an oracle draw `r`; the mapping is
surjective onto the closed interval `[a, b]`. -/
def randint (a b r : Nat) : Nat := a + r % (b - a + 1)

/-- The band dispatch of `HTTPInterface.wait` (src/libs/gcparser.py:503-517):
the sleep time chosen for a given ahead-of-schedule `count` and one random
draw `r`. -/
def sleepTimeFor (count : Int) (r : Nat) : Nat :=
  if count < 10 then 1
  else if count < 50 then randint 2 8 r
  else if count < 200 then randint 5 35 r
  else if count < 500 then randint 10 50 r
  else randint 20 80 r

/-- The accounting step of `HTTPInterface.wait` (src/libs/gcparser.py:499-502)
at a fixed wall-clock time `t`:
`_first_download = max(time() - _download_count * request_avg_time, _first_download)`
then `count = _download_count - int((time() - _first_download) / request_avg_time)`.
State is `(first_download, download_count)`; with `f ≤ t` the Python float
arithmetic and `int()` truncation agree with ℕ subtraction and division. -/
def waitCount (avg t f n : Nat) : Int × Nat :=
  let f2 := max (t - n * avg) f
  ((n : Int) - ((t - f2) / avg : Nat), f2)

/-- A burst of authenticated `wait` calls at a fixed time `t`: each call
updates `_first_download`, computes `count`, draws once, and increments
`_download_count`.  Returns the `(count, sleep_time)` pair of each call. -/
def burst (avg t : Nat) : Nat → Nat → List Nat → List (Int × Nat)
  | _, _, [] => []
  | f, n, r :: rs =>
    let c := waitCount avg t f n
    (c.1, sleepTimeFor c.1 r) :: burst avg t c.2 (n + 1) rs

/-- The delays of a burst. -/
def burstDelays (avg t f n : Nat) (rs : List Nat) : List Nat :=
  (burst avg t f n rs).map Prod.snd

/-- Lower bound of the delay band chosen for a given `count`. -/
def bandMin (c : Int) : Nat :=
  if c < 10 then 1 else if c < 50 then 2 else if c < 200 then 5
  else if c < 500 then 10 else 20

/-- Upper bound of the delay band chosen for a given `count`. -/
def bandMax (c : Int) : Nat :=
  if c < 10 then 1 else if c < 50 then 8 else if c < 200 then 35
  else if c < 500 then 50 else 80

/- ### Image model

`Image` (src/libs/gcparser.py:1529-1757) stores `pixels` as a list of rows of
RGBA values; `width` is the length of the first row (`__init__`,
lines 1556-1568).  The segmentation methods scan rows/columns with
`range(self.width)` / `range(self.height)` indexing, which on the rectangular
grids produced by `from_data` coincides with the per-row traversals used
below. -/

structure RGBA where
  r : Nat
  g : Nat
  b : Nat
  a : Nat
deriving DecidableEq, Repr

abbrev Pixels := List (List RGBA)

structure Image where
  pixels : Pixels
deriving DecidableEq, Repr

def Image.height (img : Image) : Nat := img.pixels.length

def Image.width (img : Image) : Nat :=
  match img.pixels with
  | [] => 0
  | row :: _ => row.length

/-- Elements of `l` at indices in `[max(lo,0), min(hi,len))` — the index set
of Python `range(max(lo,0), min(hi,len))`. -/
def sliceI {β : Type} (l : List β) (lo hi : Int) : List β :=
  (l.take (min hi (l.length : Int)).toNat).drop (max lo 0).toNat

/-- `Image.cut` (src/libs/gcparser.py:1624-1641): rows
`range(max(top,0), min(bottom+1, height))`, columns
`range(max(left,0), min(right+1, width))`. -/
def Image.cut (img : Image) (left top right bottom : Int) : Image :=
  Image.mk ((sliceI img.pixels top (bottom + 1)).map
    (fun row => sliceI row left (right + 1)))

/-- A row all of whose pixels satisfy the emptiness predicate: the inner loop
of `vstrip` / `vsplit` (src/libs/gcparser.py:1653-1658, 1708-1712). -/
def rowEmpty (e : RGBA → Bool) (row : List RGBA) : Bool := row.all e

/-- Column emptiness: the inner loop of `hstrip` / `hsplit`
(src/libs/gcparser.py:1675-1679, 1740-1744). -/
def colEmpty (e : RGBA → Bool) (pixels : Pixels) (x : Nat) : Bool :=
  pixels.all (fun row =>
    match row.get? x with
    | some px => e px
    | none => true)

/-- `Image.bitmask` (src/libs/gcparser.py:1602-1622) with the default
`chars=" X"`: one string per row, a space for an empty pixel and `X` for a
filled one. -/
def Image.bitmask (img : Image) (e : RGBA → Bool) : List String :=
  img.pixels.map (fun row =>
    String.mk (row.map (fun px => if e px then ' ' else 'X')))

/-- The scanning loop of `Image.vstrip` (src/libs/gcparser.py:1643-1662):
starting from `(top, bottom) = (height-1, 0)`, each non-empty row `y` updates
`top = min(y, top)`, `bottom = max(y, bottom)`. -/
def vstripScan (e : RGBA → Bool) : Pixels → Nat → Int × Int → Int × Int
  | [], _, tb => tb
  | row :: rest, y, tb =>
    if rowEmpty e row then vstripScan e rest (y + 1) tb
    else vstripScan e rest (y + 1) (min (y : Int) tb.1, max (y : Int) tb.2)

def Image.vstrip (img : Image) (e : RGBA → Bool) : Image :=
  let tb := vstripScan e img.pixels 0 ((img.height : Int) - 1, 0)
  img.cut 0 tb.1 ((img.width : Int) - 1) tb.2

/-- The scanning loop of `Image.hstrip` (src/libs/gcparser.py:1664-1683);
`rem` counts the columns still to scan, so the loop visits
`x = 0, ..., width-1`. -/
def hstripScan (img : Image) (e : RGBA → Bool) :
    Nat → Nat → Int × Int → Int × Int
  | 0, _, lr => lr
  | rem + 1, x, lr =>
    hstripScan img e rem (x + 1)
      (if colEmpty e img.pixels x then lr
       else (min (x : Int) lr.1, max (x : Int) lr.2))

def Image.hstrip (img : Image) (e : RGBA → Bool) : Image :=
  let lr := hstripScan img e img.width 0 ((img.width : Int) - 1, 0)
  img.cut lr.1 0 lr.2 ((img.height : Int) - 1)

/-- `Image.strip` (src/libs/gcparser.py:1685-1693). -/
def Image.strip (img : Image) (e : RGBA → Bool) : Image :=
  (img.vstrip e).hstrip e

/-- The row loop of `Image.vsplit` (src/libs/gcparser.py:1695-1725): state is
the optional `(top, bottom)` of the current run of non-empty rows; an empty
row flushes `cut(0, top, width-1, bottom)`, and a trailing run is flushed at
the end. -/
def vsplitGo (img : Image) (e : RGBA → Bool) :
    Pixels → Nat → Option (Nat × Nat) → List Image
  | [], _, none => []
  | [], _, some (t, b) => [img.cut 0 (t : Int) ((img.width : Int) - 1) (b : Int)]
  | row :: rest, y, st =>
    if rowEmpty e row then
      match st with
      | none => vsplitGo img e rest (y + 1) none
      | some (t, b) =>
          img.cut 0 (t : Int) ((img.width : Int) - 1) (b : Int) ::
            vsplitGo img e rest (y + 1) none
    else
      match st with
      | none => vsplitGo img e rest (y + 1) (some (y, y))
      | some (t, _) => vsplitGo img e rest (y + 1) (some (t, y))

def Image.vsplit (img : Image) (e : RGBA → Bool) : List Image :=
  vsplitGo img e img.pixels 0 none

/-- The column loop of `Image.hsplit` (src/libs/gcparser.py:1727-1757);
`rem` counts the columns still to scan. -/
def hsplitGo (img : Image) (e : RGBA → Bool) :
    Nat → Nat → Option (Nat × Nat) → List Image
  | 0, _, none => []
  | 0, _, some (l, r) =>
      [img.cut (l : Int) 0 (r : Int) ((img.height : Int) - 1)]
  | rem + 1, x, st =>
    if colEmpty e img.pixels x then
      match st with
      | none => hsplitGo img e rem (x + 1) none
      | some (l, r) =>
          img.cut (l : Int) 0 (r : Int) ((img.height : Int) - 1) ::
            hsplitGo img e rem (x + 1) none
    else
      match st with
      | none => hsplitGo img e rem (x + 1) (some (x, x))
      | some (l, _) => hsplitGo img e rem (x + 1) (some (l, x))

def Image.hsplit (img : Image) (e : RGBA → Bool) : List Image :=
  hsplitGo img e img.width 0 none

/-- `Image.from_data` (src/libs/gcparser.py:1570-1600).  The PNG library is
external; `dec` abstracts `png.Reader(bytes=data).asRGBA8()` as width, height
and pixel rows, or a decode exception.  Zero-length input short-circuits to
`cls()` (line 1586-1587) before the library is invoked; after decoding,
`len(pixels) != height or len(pixels[-1]) != width` raises `ValueError`
(for zero decoded rows, `pixels[-1]` itself raises `IndexError`: either way an
exception). -/
def from_data (dec : List Nat → Except Unit (Nat × Nat × Pixels))
    (data : List Nat) : Except Unit Image :=
  if data.length = 0 then Except.ok (Image.mk []) else
  match dec data with
  | Except.error e => Except.error e
  | Except.ok (w, h, pixels) =>
    match pixels.getLast? with
    | none => Except.error ()
    | some lastRow =>
      if pixels.length = h ∧ lastRow.length = w then Except.ok (Image.mk pixels)
      else Except.error ()

/-- `ImageDownloader.run` (src/libs/gcparser.py:1520-1526): any exception from
`Image.from_data` is caught and replaced by the empty `Image()`. -/
def downloaderImage (dec : List Nat → Except Unit (Nat × Nat × Pixels))
    (data : List Nat) : Image :=
  match from_data dec data with
  | Except.ok img => img
  | Except.error _ => Image.mk []

/-- Decidable equality for `Except`, used to evaluate recognition results. -/
instance {ε α : Type} [DecidableEq ε] [DecidableEq α] : DecidableEq (Except ε α) := fun x y =>
  match x, y with
  | Except.ok a, Except.ok b =>
    if h : a = b then Decidable.isTrue (by rw [h])
    else Decidable.isFalse (by intro hc; cases hc; exact h rfl)
  | Except.error a, Except.error b =>
    if h : a = b then Decidable.isTrue (by rw [h])
    else Decidable.isFalse (by intro hc; cases hc; exact h rfl)
  | Except.ok _, Except.error _ => Decidable.isFalse (by intro hc; cases hc)
  | Except.error _, Except.ok _ => Decidable.isFalse (by intro hc; cases hc)

/- ### Glyph recognition (`SeekCacheOCR`, src/libs/gcparser.py:1292-1446) -/

/-- The emptiness predicate `lambda x: x.a < 100` used throughout `_get_dd`
and for the D/T part of `_get_dts`. -/
def emptyA (px : RGBA) : Bool := px.a < 100

/-- The size-icon predicate of `_get_dts` (line 1395):
`lambda x: x.a < 100 or x.r < max(x.g, x.b)*2`. -/
def emptyRed (px : RGBA) : Bool := px.a < 100 || px.r < (max px.g px.b) * 2

/-- `SeekCacheOCR._match_pattern` (src/libs/gcparser.py:1313-1314): the
pattern dictionary maps a bitmask signature (tuple of row strings) to the
string it stands for; `dict.get` yields `None` on a miss. -/
def matchPattern (pats : List (List String × String)) (sig : List String) :
    Option String :=
  match pats.find? (fun pr => decide (pr.1 = sig)) with
  | some pr => some pr.2
  | none => none

/-- The per-band glyph resolution loop shared by `_get_dd` and `_get_dts`
(src/libs/gcparser.py:1380-1387, 1417-1424, 1428-1435): each glyph is
`vstrip`-ped, bitmasked and looked up; a miss aborts with `None`, otherwise
the characters are concatenated. -/
def resolveGlyphs (pats : List (List String × String)) (e : RGBA → Bool)
    (glyphs : List Image) : Option String :=
  glyphs.foldl
    (fun acc g =>
      match acc with
      | none => none
      | some s =>
        match matchPattern pats ((g.vstrip e).bitmask e) with
        | none => none
        | some c => some (s ++ c))
    (some "")

/-- A decimal-literal parser standing for Python `float()` on the strings the
pattern dictionary can produce: digits with at most one dot.  `none` stands
for the `ValueError` that `float()` raises on a non-numeric string. -/
def digitsToNat (cs : List Char) : Nat :=
  cs.foldl (fun acc c => acc * 10 + (c.toNat - 48)) 0

def parseDec (cs : List Char) : Option ℚ :=
  if cs = [] then none
  else if !(cs.all (fun c => c.isDigit || c = '.')) then none
  else
    match splitChar '.' cs with
    | [a] => some ((digitsToNat a : ℚ))
    | [a, b] =>
      if a = [] ∧ b = [] then none
      else some ((digitsToNat a : ℚ) +
        (digitsToNat b : ℚ) / ((10 : ℚ) ^ b.length))
    | _ => none

/-- `SeekCacheOCR._get_dts` (src/libs/gcparser.py:1369-1403) on an already
downloaded image.  `Except.error ()` marks an uncaught Python exception
(the `ValueError` of `float()` on a resolved but non-numeric token);
`Except.ok none` is the "unrecognized" result. -/
def getDTS (pats : List (List String × String)) (img : Image) :
    Except Unit (Option (ℚ × ℚ × String)) :=
  match img.vsplit emptyA with
  | [b0, b1] =>
    match resolveGlyphs pats emptyA (b0.hsplit emptyA) with
    | none => Except.ok none
    | some dt =>
      match splitChar '/' dt.toList with
      | [d, t] =>
        match parseDec d, parseDec t with
        | some diff, some terr =>
          match matchPattern pats ((b1.strip emptyRed).bitmask emptyRed) with
          | none => Except.ok none
          | some size => Except.ok (some (diff, terr, size))
        | _, _ => Except.error ()
      | _ => Except.ok none
  | _ => Except.ok none

/-- Kilometres per mile as written on src/libs/gcparser.py:1437. -/
def miKm : ℚ := 1609344 / 1000000

/-- Kilometres per foot as written on src/libs/gcparser.py:1439. -/
def ftKm : ℚ := 3048 / 10000000

/-- `SeekCacheOCR._get_dd` (src/libs/gcparser.py:1405-1446) on an already
downloaded image.  Note `img_dir.pop(0)` (line 1415): the first glyph of the
direction band is discarded before resolution (`Except.error ()` marks the
`IndexError` `pop(0)` raises on an empty band).  The result pair is
`(distance, direction)` as in the source. -/
def getDD (pats : List (List String × String)) (img : Image) :
    Except Unit (Option (ℚ × String)) :=
  match img.vsplit emptyA with
  | [b0, b1] =>
    match b0.hsplit emptyA with
    | [] => Except.error ()
    | _ :: dirGlyphs =>
      match resolveGlyphs pats emptyA dirGlyphs with
      | none => Except.ok none
      | some dir =>
        match resolveGlyphs pats emptyA (b1.hsplit emptyA) with
        | none => Except.ok none
        | some dist =>
          let ds := dist.toList
          if "mi".toList.isSuffixOf ds then
            match parseDec (ds.take (ds.length - 2)) with
            | some q => Except.ok (some (q * miKm, dir))
            | none => Except.error ()
          else if "ft".toList.isSuffixOf ds then
            match parseDec (ds.take (ds.length - 2)) with
            | some q => Except.ok (some (q * ftKm, dir))
            | none => Except.error ()
          else if dist = "Here" then Except.ok (some (0, dir))
          else Except.ok none
  | _ => Except.ok none

/-- The spec-side reading of the direction result in C5: the concatenated
dictionary resolution of EVERY glyph segmented from the direction band,
first glyph included.  Kept separate from `getDD` (which embeds the source)
so the two can be compared. -/
def specDirectionAll (pats : List (List String × String)) (img : Image) :
    Option String :=
  match img.vsplit emptyA with
  | [b0, _] => resolveGlyphs pats emptyA (b0.hsplit emptyA)
  | _ => none

/- ### Concurrent image loading (`SeekCacheOCR._process_page`,
src/libs/gcparser.py:1316-1342) -/

/-- The spawn loop: `if code not in dd_threads: ... dd_threads[code] = thread`
iterated over the page's image codes in order of appearance.  The result is
the list of codes for which a downloader thread is started, in insertion
order. -/
def spawnLoop (codes : List String) : List String :=
  codes.foldl (fun acc c => if c ∈ acc then acc else acc ++ [c]) []

/-- The joined download map: after `_process_page` joins every spawned
thread, each spawned code is bound to the image its own thread fetched
(`fetchImg`). -/
def batchImages (fetchImg : String → Image) (codes : List String) :
    List (String × Image) :=
  (spawnLoop codes).map (fun c => (c, fetchImg c))

/-- Recognition over a joined batch: each spawned code is recognized from its
own downloaded image, independently of every other code. -/
def batchDTS (pats : List (List String × String)) (fetchImg : String → Image)
    (codes : List String) :
    List (String × Except Unit (Option (ℚ × ℚ × String))) :=
  (spawnLoop codes).map (fun c => (c, getDTS pats (fetchImg c)))

/- ### Spec-side characterization of row splitting (for C7) -/

/-- Helper: `dropWhile` never lengthens a list. -/
theorem length_dropWhile_le {β : Type} (p : β → Bool) (l : List β) :
    (l.dropWhile p).length ≤ l.length := by
  induction l with
  | nil => simp
  | cons x l ih =>
    by_cases h : p x
    · simp [List.dropWhile, h]; omega
    · simp [List.dropWhile, h]

/-- The claim-side definition for C7: the maximal contiguous bands of
consecutive elements not satisfying `p`, in order.  Each band starts at an
element with no non-`p` predecessor and extends while `p` fails. -/
def bandsSpec {β : Type} (p : β → Bool) : List β → List (List β)
  | [] => []
  | x :: l =>
    if p x then bandsSpec p l
    else (x :: l.takeWhile (fun y => !(p y))) ::
      bandsSpec p (l.dropWhile (fun y => !(p y)))
termination_by l => l.length
decreasing_by
  · simp
  · have := length_dropWhile_le (fun y => !(p y)) l
    simp
    omega

/-- Run accumulator intermediate between the index-based loop of
`Image.vsplit` and `bandsSpec`: `pending` is the current (reversed-free) run
of non-`p` elements. -/
def scanRuns {β : Type} (p : β → Bool) : List β → List β → List (List β)
  | pending, [] => if pending.isEmpty then [] else [pending]
  | pending, r :: rest =>
    if p r then
      if pending.isEmpty then scanRuns p [] rest
      else pending :: scanRuns p [] rest
    else scanRuns p (pending ++ [r]) rest

/- ### Concrete fixtures used by counterexamples and witnesses -/

/-- A filled pixel (opaque). -/
def pxF : RGBA := RGBA.mk 0 0 0 255

/-- An empty pixel (transparent). -/
def pxE : RGBA := RGBA.mk 0 0 0 0

/-- A body carrying both not-logged-in markers. -/
def notLoggedBody : String :=
  "<p class=\"NotSignedInText\"> You are not logged in."

/-- A marker-free body. -/
def cleanBody : String := "fine"

/-- Network oracle for C1: the first issuance of the fetch yields the
marker-bearing body, every re-issuance yields the clean body. -/
def bodiesA : Nat → String := fun k => if k = 0 then notLoggedBody else cleanBody

/-- C5 counterexample image: direction band of two glyphs over distance band
`Here`, separated by one empty row. -/
def imgC5 : Image := Image.mk
  [[pxF, pxE, pxE], [pxF, pxE, pxF], [pxE, pxE, pxE], [pxF, pxF, pxF]]

/-- Pattern dictionary resolving both direction glyphs of `imgC5` (the first
to `X`, the second to `N`) and its distance glyph to `Here`. -/
def patsC5 : List (List String × String) :=
  [(["X", "X"], "X"), (["X"], "N"), (["XXX"], "Here")]

/-- C5 witness image: direction band resolving (after the discarded first
glyph) to `N`, distance band resolving to `12.5` then `mi`. -/
def imgC5w : Image := Image.mk
  [[pxF, pxE, pxE, pxE, pxE], [pxF, pxE, pxF, pxF, pxE],
   [pxE, pxE, pxE, pxE, pxE],
   [pxF, pxF, pxE, pxF, pxE], [pxF, pxE, pxE, pxF, pxF]]

def patsC5w : List (List String × String) :=
  [(["X", "X"], "X"), (["XX"], "N"), (["XX", "X "], "12.5"), (["X ", "XX"], "mi")]

/-- C6 counterexample image: a 2-band D/T/size image whose D/T band resolves
to the non-numeric `N/N` and whose size-glyph signature is absent from the
dictionary. -/
def imgC6 : Image := Image.mk [[pxF], [pxE], [pxF], [pxF]]

def patsC6 : List (List String × String) := [(["X"], "N/N")]

/-- C8 counterexample draw oracle: ten draws inside the flat band, then a
high draw (8) followed by a low draw (2) inside the `randint(2, 8)` band. -/
def rsC8 : List Nat := List.replicate 10 0 ++ [6, 0]

/-- C4 witness network oracle: three `IOError`s, then success. -/
def netC4 : Nat → Option String := fun i => if i < 3 then none else some "page"

/-- C10 witness decoder: fails on every input it is asked to decode. -/
def decC10 : List Nat → Except Unit (Nat × Nat × Pixels) := fun _ => Except.error ()

/-- The direction band of `imgC5w` as produced by `vsplit`. -/
def imgC5wB0 : Image := Image.mk
  [[pxF, pxE, pxE, pxE, pxE], [pxF, pxE, pxF, pxF, pxE]]

/-- The distance band of `imgC5w` as produced by `vsplit`. -/
def imgC5wB1 : Image := Image.mk
  [[pxF, pxF, pxE, pxF, pxE], [pxF, pxE, pxE, pxF, pxF]]

/-- The first (discarded) direction glyph of `imgC5w`. -/
def imgC5wG0 : Image := Image.mk [[pxF], [pxF]]

/-- The second direction glyph of `imgC5w`, resolving to `N`. -/
def imgC5wG1 : Image := Image.mk [[pxE, pxE], [pxF, pxF]]

/-- A one-band image (no empty row), used to exercise the band-count guard. -/
def imgOneBand : Image := Image.mk [[pxF]]

/- ### Helper lemmas -/

theorem download_url_eq (net : Nat → Option String) (p : String) :
    ∀ (k a j fuel : Nat), (∀ i, i < k → net (a + i) = none) → net (a + k) = some p →
      k < fuel →
      download_url net fuel a (backoff j) =
        some (p, (List.range k).map (fun i => backoff (j + i))) := by
  intro k
  induction k with
  | zero =>
    intro a j fuel _ hsucc hfuel
    match fuel, hfuel with
    | fuel + 1, _ =>
      simp only [download_url]
      rw [show a + 0 = a from rfl] at hsucc
      rw [hsucc]
      simp
  | succ k ih =>
    intro a j fuel hfail hsucc hfuel
    match fuel, hfuel with
    | fuel + 1, hfuel =>
      simp only [download_url]
      have h0 : net a = none := by simpa using hfail 0 (by omega)
      rw [h0]
      have hmin : min (5 * backoff j) 600 = backoff (j + 1) := rfl
      rw [hmin]
      have hrec : download_url net fuel (a + 1) (backoff (j + 1)) =
          some (p, (List.range k).map (fun i => backoff (j + 1 + i))) := by
        refine ih (a + 1) (j + 1) fuel (fun i hi => ?_) ?_ (by omega)
        · have := hfail (i + 1) (by omega)
          rwa [show a + (i + 1) = a + 1 + i by omega] at this
        · rwa [show a + (k + 1) = a + 1 + k by omega] at hsucc
      rw [hrec]
      have hlist : backoff j :: (List.range k).map (fun i => backoff (j + 1 + i)) =
          (List.range (k + 1)).map (fun i => backoff (j + i)) := by
        rw [List.range_succ_eq_map, List.map_cons, List.map_map]
        refine congrArg₂ List.cons (by rw [Nat.add_zero]) ?_
        refine List.map_congr_left (fun i _ => ?_)
        show backoff (j + 1 + i) = backoff (j + (i + 1))
        rw [show j + 1 + i = j + (i + 1) by omega]
      rw [← hlist]

theorem lookup_map_self {β : Type} (f : String → β) :
    ∀ (l : List String) (c : String), c ∈ l →
      (l.map (fun x => (x, f x))).lookup c = some (f c) := by
  intro l
  induction l with
  | nil => intro c hc; cases hc
  | cons x l ih =>
    intro c hc
    by_cases h : c = x
    · subst h
      simp [List.lookup]
    · have hcl : c ∈ l := by
        cases hc with
        | head => exact absurd rfl h
        | tail _ h2 => exact h2
      have hbeq : (c == x) = false := by simp [h]
      simp [List.lookup, hbeq, ih c hcl]

theorem spawn_go (codes : List String) :
    ∀ acc : List String, acc.Nodup →
      (codes.foldl (fun acc c => if c ∈ acc then acc else acc ++ [c]) acc).Nodup
    ∧ ∀ c, c ∈ codes.foldl (fun acc c => if c ∈ acc then acc else acc ++ [c]) acc ↔
        c ∈ acc ∨ c ∈ codes := by
  induction codes with
  | nil => intro acc hacc; simpa using hacc
  | cons x codes ih =>
    intro acc hacc
    simp only [List.foldl_cons]
    by_cases hx : x ∈ acc
    · rw [if_pos hx]
      obtain ⟨h1, h2⟩ := ih acc hacc
      refine ⟨h1, fun c => ?_⟩
      rw [h2 c]
      simp only [List.mem_cons]
      constructor
      · tauto
      · rintro (h | h | h)
        · tauto
        · subst h; tauto
        · tauto
    · rw [if_neg hx]
      have hnod : (acc ++ [x]).Nodup := by
        rw [List.nodup_append]
        refine ⟨hacc, List.nodup_singleton x, ?_⟩
        intro a ha hb
        simp only [List.mem_singleton] at hb
        subst hb
        exact hx ha
      obtain ⟨h1, h2⟩ := ih (acc ++ [x]) hnod
      refine ⟨h1, fun c => ?_⟩
      rw [h2 c]
      simp only [List.mem_append, List.mem_singleton, List.mem_cons]
      tauto

/-- C1: for an authenticated fetch whose first exchange succeeds but returns
the not-logged-in marker, the evolved `HTTPInterface.request` performs one
re-authentication cycle, re-issues the same fetch (same URL, same data) and
returns the re-issued decoded text; the legacy `Fetcher.fetch`, whose source
lacks the `return` on the recursive call, performs the same cycle and
re-issued fetch but returns the original marker-bearing body — the code slip
the claim exposes. -/
theorem c1_relogin_refetch :
    HTTPInterface.request 2 bodiesA 0 "u" true (some [("a", "b")]) true =
      some (cleanBody,
        [FetchEvent.download "u" (some [("a", "b")]), FetchEvent.loginCycle,
         FetchEvent.download "u" (some [("a", "b")])])
  ∧ Fetcher.fetch 2 bodiesA 0 "u" true (some [("a", "b")]) true =
      some (notLoggedBody,
        [FetchEvent.download "u" (some [("a", "b")]), FetchEvent.loginCycle,
         FetchEvent.download "u" (some [("a", "b")])])
  ∧ HTTPInterface.check_login notLoggedBody = false
  ∧ Fetcher.checkLogin notLoggedBody = false
  ∧ HTTPInterface.check_login cleanBody = true
  ∧ Fetcher.checkLogin cleanBody = true
  ∧ cleanBody ≠ notLoggedBody := by decide

/-- C2 counterexample: with no credentials configured,
`HTTPInterface._login_attempt` raises the login-error kind (`LoginError`),
not a distinct credentials kind, refuting the claim as stated for the
evolved interface. -/
theorem c2_counterexample :
    HTTPInterface.login_attempt (Credentials.mk none none) (fun _ => []) 0 =
      (Except.error GCError.login, 0)
  ∧ GCError.login ≠ GCError.credentials := by decide

/-- C2 amended: when authentication is required but a username or password
is absent, both fetchers raise a fatal error after zero network requests;
the legacy `Fetcher.loginAttempt` raises the distinct credentials kind,
while `HTTPInterface._login_attempt` raises the login kind. -/
theorem c2_amended (creds : Credentials) (oracle : Nat → List String) (k : Nat)
    (h : creds.username = none ∨ creds.password = none) :
    HTTPInterface.login_attempt creds oracle k = (Except.error GCError.login, 0)
  ∧ Fetcher.loginAttempt creds oracle k = (Except.error GCError.credentials, 0) := by
  unfold HTTPInterface.login_attempt Fetcher.loginAttempt
  rw [if_pos h, if_pos h]
  exact ⟨rfl, rfl⟩

theorem c2_amended_witness :
    ((Credentials.mk none (some "pw")).username = none ∨
      (Credentials.mk none (some "pw")).password = none)
  ∧ HTTPInterface.login_attempt (Credentials.mk none (some "pw")) (fun _ => []) 0 =
      (Except.error GCError.login, 0) :=
  ⟨Or.inl rfl, (c2_amended (Credentials.mk none (some "pw")) (fun _ => []) 0 (Or.inl rfl)).1⟩

/-- C3: with credentials configured but the `userid` cookie never appearing,
the login flow makes exactly 2 attempts and then fails with the fatal
login error, with no further retry. -/
theorem c3_two_login_attempts (u p : String) (oracle : Nat → List String)
    (h : ∀ k, decide ("userid" ∈ oracle k) = false) :
    HTTPInterface.login (Credentials.mk (some u) (some p)) oracle =
      (Except.error GCError.login, 2) := by
  unfold HTTPInterface.login HTTPInterface.login_attempt
  simp [h 0, h 1]

theorem c3_two_login_attempts_witness :
    (∀ k : Nat, decide ("userid" ∈ ((fun _ => []) : Nat → List String) k) = false)
  ∧ HTTPInterface.login (Credentials.mk (some "u") (some "p")) (fun _ => []) =
      (Except.error GCError.login, 2) :=
  ⟨fun _ => rfl, c3_two_login_attempts "u" "p" (fun _ => []) (fun _ => rfl)⟩

/-- C4: if the first `k` download attempts fail with a transient I/O error
and attempt `k+1` succeeds, `download_url` returns the successful payload
(never an error) after waits `backoff 0, ..., backoff (k-1)`, where the
waits start at 1, each retry wait is 5 times the previous one capped at
600, and every wait is at most 600. -/
theorem c4_retry_backoff (net : Nat → Option String) (k : Nat) (p : String) (fuel : Nat)
    (hfail : ∀ i, i < k → net i = none) (hsucc : net k = some p) (hfuel : k < fuel) :
    download_url net fuel 0 1 = some (p, (List.range k).map backoff)
  ∧ backoff 0 = 1
  ∧ (∀ i, backoff (i + 1) = min (5 * backoff i) 600)
  ∧ (∀ i, backoff i ≤ 600) := by
  refine ⟨?_, rfl, fun i => rfl, ?_⟩
  · have := download_url_eq net p k 0 0 fuel (by simpa using hfail) (by simpa using hsucc) hfuel
    rw [show backoff 0 = 1 from rfl] at this
    simpa using this
  · intro i
    cases i with
    | zero => decide
    | succ i => exact min_le_right _ _

theorem c4_retry_backoff_witness :
    (∀ i, i < 3 → netC4 i = none) ∧ netC4 3 = some "page" ∧ 3 < 4
  ∧ download_url netC4 4 0 1 = some ("page", [1, 5, 25])
  ∧ ([1, 5, 25] : List Nat).sum = 31 := by
  refine ⟨?_, by decide, by decide, ?_, by decide⟩
  · intro i hi
    interval_cases i <;> rfl
  · have h := c4_retry_backoff netC4 3 "page" 4
      (fun i hi => by interval_cases i <;> rfl) (by decide) (by decide)
    exact h.1.trans (by decide)

/-- C9: the spawn loop of `_process_page` starts exactly one download task
per distinct image code — no duplicates, covering exactly the codes of the
page, `["abc","abc","xyz"]` yielding exactly the 2 tasks
`["abc","xyz"]` — and after the join every referenced code's decoded value
is the recognition of its own downloaded image. -/
theorem c9_distinct_tasks (codes : List String) :
    (spawnLoop codes).Nodup
  ∧ (∀ c, c ∈ spawnLoop codes ↔ c ∈ codes)
  ∧ (spawnLoop codes).length = codes.toFinset.card
  ∧ spawnLoop ["abc", "abc", "xyz"] = ["abc", "xyz"]
  ∧ (∀ (pats : List (List String × String)) (fetchImg : String → Image) (c : String),
      c ∈ codes →
      (batchDTS pats fetchImg codes).lookup c = some (getDTS pats (fetchImg c))) := by
  obtain ⟨h1, h2⟩ := spawn_go codes [] (List.nodup_nil)
  have hmem : ∀ c, c ∈ spawnLoop codes ↔ c ∈ codes := by
    intro c
    simpa using h2 c
  refine ⟨h1, hmem, ?_, by decide, ?_⟩
  · have hfin : (spawnLoop codes).toFinset = codes.toFinset := by
      ext c
      simp only [List.mem_toFinset]
      exact hmem c
    rw [← hfin]
    exact (List.toFinset_card_of_nodup h1).symm
  · intro pats fetchImg c hc
    exact lookup_map_self (fun x => getDTS pats (fetchImg x)) (spawnLoop codes) c
      ((hmem c).mpr hc)

/-- C10: decoding a zero-length byte string yields the empty image (width 0,
height 0) rather than a decode error — only non-empty input can fail — and
the empty image segments into no bands, so both recognizers degrade to the
"unrecognized" result on it. -/
theorem c10_empty_decode (pats : List (List String × String))
    (dec : List Nat → Except Unit (Nat × Nat × Pixels)) :
    from_data dec [] = Except.ok (Image.mk [])
  ∧ (Image.mk []).width = 0 ∧ (Image.mk []).height = 0
  ∧ (Image.mk []).vsplit emptyA = []
  ∧ getDD pats (Image.mk []) = Except.ok none
  ∧ getDTS pats (Image.mk []) = Except.ok none
  ∧ (∀ data e, from_data dec data = Except.error e → data ≠ []) := by
  refine ⟨rfl, rfl, rfl, rfl, rfl, rfl, ?_⟩
  intro data e herr hdata
  subst hdata
  simp [from_data] at herr

theorem c10_empty_decode_witness :
    from_data decC10 [] = Except.ok (Image.mk [])
  ∧ (from_data decC10 [1] = Except.error () → [1] ≠ ([] : List Nat)) :=
  ⟨(c10_empty_decode [] decC10).1,
   (c10_empty_decode [] decC10).2.2.2.2.2.2 [1] ()⟩

/-- Evaluation of the decimal parser on the C5 example token. -/
theorem parseDec_125 : parseDec "12.5".toList = some ((25 : ℚ) / 2) := by
  have h : parseDec "12.5".toList =
      some ((digitsToNat ['1', '2'] : ℚ) +
        (digitsToNat ['5'] : ℚ) / ((10 : ℚ) ^ (['5'] : List Char).length)) := rfl
  have h1 : digitsToNat ['1', '2'] = 12 := rfl
  have h2 : digitsToNat ['5'] = 5 := rfl
  rw [h, h1, h2]
  norm_num

/-- C5 counterexample: on `imgC5` every direction-band glyph is
dictionary-resolvable and their concatenation is `XN`, but `_get_dd` pops
the first glyph and returns direction `N` — the returned direction is not
the concatenation of the resolved characters of every segmented glyph. -/
theorem c5_counterexample :
    specDirectionAll patsC5 imgC5 = some "XN"
  ∧ getDD patsC5 imgC5 = Except.ok (some (0, "N"))
  ∧ ("N" : String) ≠ "XN" := by decide

/-- C5 amended: for a 2-band direction/distance image, the returned
direction is the concatenation of the dictionary-resolved characters of
every direction-band glyph EXCEPT the first (discarded by `pop(0)`), and
the distance is computed from the distance band's resolved string by its
suffix: `mi` multiplies the numeric prefix by 1.609344, `ft` by 0.0003048,
and the literal `Here` yields 0. -/
theorem c5_amended (pats : List (List String × String)) (img b0 b1 g0 : Image)
    (gs : List Image) (dir dist : String)
    (hb : img.vsplit emptyA = [b0, b1])
    (hg : b0.hsplit emptyA = g0 :: gs)
    (hdir : resolveGlyphs pats emptyA gs = some dir)
    (hdist : resolveGlyphs pats emptyA (b1.hsplit emptyA) = some dist) :
    (∀ q : ℚ, "mi".toList.isSuffixOf dist.toList = true →
      parseDec (dist.toList.take (dist.toList.length - 2)) = some q →
      getDD pats img = Except.ok (some (q * miKm, dir)))
  ∧ (∀ q : ℚ, "mi".toList.isSuffixOf dist.toList = false →
      "ft".toList.isSuffixOf dist.toList = true →
      parseDec (dist.toList.take (dist.toList.length - 2)) = some q →
      getDD pats img = Except.ok (some (q * ftKm, dir)))
  ∧ (dist = "Here" → getDD pats img = Except.ok (some (0, dir))) := by
  refine ⟨?_, ?_, ?_⟩
  · intro q hmi hq
    simp only [getDD, hb, hg, hdir, hdist]
    rw [hmi, if_pos rfl, hq]
  · intro q hmi hft hq
    simp only [getDD, hb, hg, hdir, hdist]
    rw [hmi, if_neg (by simp), hft, if_pos rfl, hq]
  · intro hH
    subst hH
    have hmi : ("mi".toList.isSuffixOf "Here".toList) = false := by decide
    have hft : ("ft".toList.isSuffixOf "Here".toList) = false := by decide
    simp only [getDD, hb, hg, hdir, hdist]
    rw [hmi, if_neg (by simp), hft, if_neg (by simp)]
    simp

theorem c5_amended_witness :
    imgC5w.vsplit emptyA = [imgC5wB0, imgC5wB1]
  ∧ imgC5wB0.hsplit emptyA = imgC5wG0 :: [imgC5wG1]
  ∧ resolveGlyphs patsC5w emptyA [imgC5wG1] = some "N"
  ∧ resolveGlyphs patsC5w emptyA (imgC5wB1.hsplit emptyA) = some "12.5mi"
  ∧ getDD patsC5w imgC5w =
      Except.ok (some ((125 / 10 : ℚ) * (1609344 / 1000000 : ℚ), "N")) := by
  refine ⟨by decide, by decide, by decide, by decide, ?_⟩
  have hq : parseDec ("12.5mi".toList.take ("12.5mi".toList.length - 2)) =
      some ((25 : ℚ) / 2) := by
    have ht : "12.5mi".toList.take ("12.5mi".toList.length - 2) = "12.5".toList := by
      decide
    rw [ht]
    exact parseDec_125
  have h := (c5_amended patsC5w imgC5w imgC5wB0 imgC5wB1 imgC5wG0 [imgC5wG1]
      "N" "12.5mi" (by decide) (by decide) (by decide) (by decide)).1
      ((25 : ℚ) / 2) (by decide) hq
  have heq : (25 : ℚ) / 2 * miKm = (125 / 10 : ℚ) * (1609344 / 1000000 : ℚ) := by
    norm_num [miKm]
  rw [heq] at h
  exact h

/-- C6 counterexample: on `imgC6` the size glyph's bitmask signature is
absent from the dictionary, yet `_get_dts` raises (the `ValueError` of
`float("N")` on the resolved D/T string `N/N`) instead of returning the
"unrecognized" result — recognition failure can be an uncaught exception. -/
theorem c6_counterexample :
    getDTS patsC6 imgC6 = Except.error ()
  ∧ matchPattern patsC6
      ((((imgC6.vsplit emptyA).getD 1 (Image.mk [])).strip emptyRed).bitmask emptyRed)
      = none := by decide

/-- C6 amended: recognition returns "unrecognized" without raising when the
image does not split into exactly two bands, when a D/T-band glyph is
unresolved, or when the D/T string resolves and parses into two numeric
tokens but the size glyph is unresolved; a malformed download is replaced by
the empty image, which both recognizers map to "unrecognized"; and each code
of a batch is recognized from its own image only, so one code's failure
leaves every other code's result unchanged. -/
theorem c6_amended (pats : List (List String × String)) (img : Image) :
    ((img.vsplit emptyA).length ≠ 2 →
      getDTS pats img = Except.ok none ∧ getDD pats img = Except.ok none)
  ∧ (∀ b0 b1 : Image, img.vsplit emptyA = [b0, b1] →
      resolveGlyphs pats emptyA (b0.hsplit emptyA) = none →
      getDTS pats img = Except.ok none)
  ∧ (∀ (b0 b1 : Image) (dt : String) (d t : List Char) (dq tq : ℚ),
      img.vsplit emptyA = [b0, b1] →
      resolveGlyphs pats emptyA (b0.hsplit emptyA) = some dt →
      splitChar '/' dt.toList = [d, t] →
      parseDec d = some dq → parseDec t = some tq →
      matchPattern pats ((b1.strip emptyRed).bitmask emptyRed) = none →
      getDTS pats img = Except.ok none)
  ∧ (∀ (dec : List Nat → Except Unit (Nat × Nat × Pixels)) (data : List Nat),
      (from_data dec data).isOk = false →
      downloaderImage dec data = Image.mk []
    ∧ getDTS pats (Image.mk []) = Except.ok none
    ∧ getDD pats (Image.mk []) = Except.ok none)
  ∧ (∀ (fetchImg : String → Image) (codes : List String) (c : String),
      c ∈ codes →
      (batchDTS pats fetchImg codes).lookup c = some (getDTS pats (fetchImg c))) := by
  refine ⟨?_, ?_, ?_, ?_, ?_⟩
  · intro hlen
    cases hvs : img.vsplit emptyA with
    | nil => exact ⟨by simp only [getDTS, hvs], by simp only [getDD, hvs]⟩
    | cons b0 rest0 =>
      cases rest0 with
      | nil => exact ⟨by simp only [getDTS, hvs], by simp only [getDD, hvs]⟩
      | cons b1 rest1 =>
        cases rest1 with
        | nil =>
          rw [hvs] at hlen
          exact absurd rfl hlen
        | cons b2 rest2 =>
          exact ⟨by simp only [getDTS, hvs], by simp only [getDD, hvs]⟩
  · intro b0 b1 hvs hres
    simp only [getDTS, hvs, hres]
  · intro b0 b1 dt d t dq tq hvs hres hsp hd ht hsize
    simp only [getDTS, hvs, hres, hsp, hd, ht, hsize]
  · intro dec data hfail
    refine ⟨?_, rfl, rfl⟩
    unfold downloaderImage
    cases h : from_data dec data with
    | ok i =>
      rw [h] at hfail
      simp [Except.isOk, Except.toBool] at hfail
    | error e => rfl
  · intro fetchImg codes c hc
    have hmem := (spawn_go codes [] List.nodup_nil).2 c
    exact lookup_map_self (fun x => getDTS pats (fetchImg x)) (spawnLoop codes) c
      (by simpa using hmem.mpr (Or.inr hc))

theorem c6_amended_witness :
    ((imgOneBand.vsplit emptyA).length ≠ 2 ∧
      getDTS patsC6 imgOneBand = Except.ok none)
  ∧ (imgC6.vsplit emptyA =
      [Image.mk [[pxF]], Image.mk [[pxF], [pxF]]] ∧
     resolveGlyphs ([] : List (List String × String)) emptyA
        ((Image.mk [[pxF]]).hsplit emptyA) = none ∧
     getDTS ([] : List (List String × String)) imgC6 = Except.ok none) := by
  constructor
  · exact ⟨by decide, ((c6_amended patsC6 imgOneBand).1 (by decide)).1⟩
  · refine ⟨by decide, by decide, ?_⟩
    exact (c6_amended ([] : List (List String × String)) imgC6).2.1
      (Image.mk [[pxF]]) (Image.mk [[pxF], [pxF]]) (by decide) (by decide)

theorem bandMin_mono (c d : Int) (h : c ≤ d) : bandMin c ≤ bandMin d := by
  unfold bandMin
  split_ifs <;> omega

theorem bandMax_mono (c d : Int) (h : c ≤ d) : bandMax c ≤ bandMax d := by
  unfold bandMax
  split_ifs <;> omega

theorem sleepTimeFor_bounds (c : Int) (r : Nat) :
    bandMin c ≤ sleepTimeFor c r ∧ sleepTimeFor c r ≤ bandMax c := by
  unfold sleepTimeFor bandMin bandMax randint
  split_ifs <;> constructor <;> omega

theorem waitCount_snd_le (avg t f n : Nat) (hf : f ≤ t) :
    (waitCount avg t f n).2 ≤ t := by
  unfold waitCount
  simp only
  omega

theorem waitCount_step (avg t f n : Nat) (hf : f ≤ t) :
    (waitCount avg t f n).1 ≤ (waitCount avg t (waitCount avg t f n).2 (n + 1)).1 := by
  unfold waitCount
  simp only
  have hd : (t - max (t - (n + 1) * avg) (max (t - n * avg) f)) / avg ≤
      (t - max (t - n * avg) f) / avg := by
    refine Nat.div_le_div_right ?_
    omega
  omega

theorem burst_counts_lower (avg t : Nat) :
    ∀ (rs : List Nat) (f n : Nat), f ≤ t →
      ∀ pr ∈ burst avg t f n rs, (waitCount avg t f n).1 ≤ pr.1 := by
  intro rs
  induction rs with
  | nil => intro f n _ pr hpr; simp [burst] at hpr
  | cons r rs ih =>
    intro f n hf pr hpr
    simp only [burst] at hpr
    rcases List.mem_cons.mp hpr with heq | hmem
    · rw [heq]
    · refine le_trans (waitCount_step avg t f n hf) ?_
      exact ih (waitCount avg t f n).2 (n + 1) (waitCount_snd_le avg t f n hf) pr hmem

theorem burst_counts_pairwise (avg t : Nat) :
    ∀ (rs : List Nat) (f n : Nat), f ≤ t →
      List.Pairwise (fun a b : Int × Nat => a.1 ≤ b.1) (burst avg t f n rs) := by
  intro rs
  induction rs with
  | nil => intro f n _; simp [burst]
  | cons r rs ih =>
    intro f n hf
    simp only [burst]
    refine List.Pairwise.cons ?_ (ih (waitCount avg t f n).2 (n + 1)
      (waitCount_snd_le avg t f n hf))
    intro pr hpr
    refine le_trans (waitCount_step avg t f n hf) ?_
    exact burst_counts_lower avg t rs (waitCount avg t f n).2 (n + 1)
      (waitCount_snd_le avg t f n hf) pr hpr

theorem burst_delay_bounds (avg t : Nat) :
    ∀ (rs : List Nat) (f n : Nat),
      ∀ pr ∈ burst avg t f n rs, bandMin pr.1 ≤ pr.2 ∧ pr.2 ≤ bandMax pr.1 := by
  intro rs
  induction rs with
  | nil => intro f n pr hpr; simp [burst] at hpr
  | cons r rs ih =>
    intro f n pr hpr
    simp only [burst] at hpr
    rcases List.mem_cons.mp hpr with heq | hmem
    · rw [heq]
      exact sleepTimeFor_bounds (waitCount avg t f n).1 r
    · exact ih (waitCount avg t f n).2 (n + 1) pr hmem

/-- C8 counterexample: in a fresh burst at a fixed wall-clock instant, with
draw oracle `rsC8`, the computed delays are ten 1-second sleeps followed by
an 8 and then a 2 — the 12th delay is smaller than the 11th, so the delay
sequence is not monotonically non-decreasing. -/
theorem c8_counterexample :
    burstDelays 600 1000 0 0 rsC8 = [1, 1, 1, 1, 1, 1, 1, 1, 1, 1, 8, 2]
  ∧ ¬ List.Pairwise (· ≤ ·) (burstDelays 600 1000 0 0 rsC8) := by decide

/-- C8 amended: in a burst at a fixed instant the ahead-of-schedule counts
are monotonically non-decreasing, hence so are the lower and upper bounds of
the delay band each call draws from, and every computed delay lies within
its call's band — but the sampled delay itself may decrease between calls. -/
theorem c8_amended (avg t f n : Nat) (rs : List Nat) (hf : f ≤ t) :
    List.Pairwise (fun a b : Int × Nat => a.1 ≤ b.1) (burst avg t f n rs)
  ∧ (∀ pr ∈ burst avg t f n rs, bandMin pr.1 ≤ pr.2 ∧ pr.2 ≤ bandMax pr.1)
  ∧ List.Pairwise (· ≤ ·) ((burst avg t f n rs).map (fun pr => bandMin pr.1))
  ∧ List.Pairwise (· ≤ ·) ((burst avg t f n rs).map (fun pr => bandMax pr.1)) := by
  have hpw := burst_counts_pairwise avg t rs f n hf
  refine ⟨hpw, burst_delay_bounds avg t rs f n, ?_, ?_⟩
  · exact hpw.map (fun pr => bandMin pr.1) (fun a b hab => bandMin_mono a.1 b.1 hab)
  · exact hpw.map (fun pr => bandMax pr.1) (fun a b hab => bandMax_mono a.1 b.1 hab)

theorem c8_amended_witness :
    (0 : Nat) ≤ 1000
  ∧ List.Pairwise (· ≤ ·) ((burst 600 1000 0 0 rsC8).map (fun pr => bandMin pr.1))
  ∧ (∀ pr ∈ burst 600 1000 0 0 rsC8, bandMin pr.1 ≤ pr.2 ∧ pr.2 ≤ bandMax pr.1) :=
  ⟨by decide, (c8_amended 600 1000 0 0 rsC8 (by decide)).2.2.1,
   (c8_amended 600 1000 0 0 rsC8 (by decide)).2.1⟩

theorem take_min_length {β : Type} (l : List β) (n : Nat) :
    l.take (min n l.length) = l.take n := by
  rcases le_total n l.length with h | h
  · rw [min_eq_left h]
  · rw [min_eq_right h, List.take_length, List.take_of_length_le h]

theorem sliceI_nat {β : Type} (l : List β) (t b : Nat) :
    sliceI l (t : Int) ((b : Int) + 1) = (l.take (b + 1)).drop t := by
  unfold sliceI
  have h1 : (max (t : Int) 0).toNat = t := by omega
  have h2 : (min ((b : Int) + 1) (l.length : Int)).toNat = min (b + 1) l.length := by
    omega
  rw [h1, h2, take_min_length]

theorem sliceI_row {β : Type} (row : List β) (w : Nat) (hw : row.length = w) :
    sliceI row 0 (((w : Int) - 1) + 1) = row := by
  unfold sliceI
  have h0 : ((w : Int) - 1) + 1 = (w : Int) := by ring
  rw [h0]
  have h1 : (max (0 : Int) 0).toNat = 0 := rfl
  have h2 : (min ((w : Int)) (row.length : Int)).toNat = w := by omega
  rw [h1, h2, List.drop_zero, ← hw, List.take_length]

theorem cut_full (img : Image) (t b : Nat)
    (hrect : ∀ row ∈ img.pixels, row.length = img.width) :
    (img.cut 0 (t : Int) ((img.width : Int) - 1) (b : Int)).pixels =
      (img.pixels.take (b + 1)).drop t := by
  unfold Image.cut
  simp only
  rw [sliceI_nat]
  have hcongr : ∀ row ∈ (img.pixels.take (b + 1)).drop t,
      sliceI row 0 (((img.width : Int) - 1) + 1) = row := by
    intro row hrow
    exact sliceI_row row img.width
      (hrect row (List.mem_of_mem_take (List.mem_of_mem_drop hrow)))
  calc ((img.pixels.take (b + 1)).drop t).map
        (fun row => sliceI row 0 (((img.width : Int) - 1) + 1))
      = ((img.pixels.take (b + 1)).drop t).map id :=
        List.map_congr_left hcongr
    _ = (img.pixels.take (b + 1)).drop t := List.map_id _

theorem bandsSpec_nil {β : Type} (p : β → Bool) : bandsSpec p [] = [] := by
  rw [bandsSpec]

theorem bandsSpec_cons_pos {β : Type} (p : β → Bool) (x : β) (l : List β)
    (hx : p x = true) : bandsSpec p (x :: l) = bandsSpec p l := by
  rw [bandsSpec, if_pos hx]

theorem bandsSpec_cons_neg {β : Type} (p : β → Bool) (x : β) (l : List β)
    (hx : p x = false) :
    bandsSpec p (x :: l) =
      (x :: l.takeWhile (fun y => !(p y))) ::
        bandsSpec p (l.dropWhile (fun y => !(p y))) := by
  rw [bandsSpec, if_neg (by simp [hx])]

theorem scanRuns_flatten {β : Type} (p : β → Bool) :
    ∀ (l pending : List β),
      (scanRuns p pending l).flatten = pending ++ l.filter (fun x => !(p x)) := by
  intro l
  induction l with
  | nil =>
    intro pending
    cases pending with
    | nil => rfl
    | cons y ys =>
      simp only [scanRuns]
      rw [if_neg (by simp)]
      simp
  | cons r l ih =>
    intro pending
    simp only [scanRuns]
    by_cases hp : p r
    · rw [if_pos hp]
      have hfilter : (r :: l).filter (fun x => !(p x)) = l.filter (fun x => !(p x)) := by
        rw [List.filter_cons, if_neg (by simp [hp])]
      rw [hfilter]
      cases pending with
      | nil =>
        rw [if_pos (show ([] : List β).isEmpty = true from rfl)]
        simpa using ih []
      | cons y ys =>
        rw [if_neg (by simp)]
        simp only [List.flatten_cons]
        rw [ih []]
        simp
    · rw [if_neg hp, ih (pending ++ [r])]
      have hfilter : (r :: l).filter (fun x => !(p x)) =
          r :: l.filter (fun x => !(p x)) := by
        rw [List.filter_cons, if_pos (by simp [hp])]
      rw [hfilter]
      simp

theorem takeWhile_append_all {β : Type} (q : β → Bool) :
    ∀ (m l : List β), (∀ x ∈ m, q x = true) →
      (m ++ l).takeWhile q = m ++ l.takeWhile q := by
  intro m
  induction m with
  | nil => intro l _; rfl
  | cons x m ih =>
    intro l hall
    have hx : q x = true := hall x (List.mem_cons_self x m)
    simp only [List.cons_append, List.takeWhile_cons, hx, if_true]
    rw [ih l (fun y hy => hall y (List.mem_cons_of_mem x hy))]

theorem dropWhile_append_all {β : Type} (q : β → Bool) :
    ∀ (m l : List β), (∀ x ∈ m, q x = true) →
      (m ++ l).dropWhile q = l.dropWhile q := by
  intro m
  induction m with
  | nil => intro l _; rfl
  | cons x m ih =>
    intro l hall
    have hx : q x = true := hall x (List.mem_cons_self x m)
    simp only [List.cons_append, List.dropWhile_cons, hx, if_true]
    exact ih l (fun y hy => hall y (List.mem_cons_of_mem x hy))

theorem bandsSpec_all_neg {β : Type} (p : β → Bool) (m : List β)
    (hall : ∀ x ∈ m, p x = false) (hne : m ≠ []) : bandsSpec p m = [m] := by
  match m, hne with
  | x :: rest, _ =>
    have hx : p x = false := hall x (List.mem_cons_self x rest)
    rw [bandsSpec_cons_neg p x rest hx]
    have htw : rest.takeWhile (fun y => !(p y)) = rest :=
      List.takeWhile_eq_self_iff.mpr
        (fun y hy => by simp [hall y (List.mem_cons_of_mem x hy)])
    have hdw : rest.dropWhile (fun y => !(p y)) = [] :=
      List.dropWhile_eq_nil_iff.mpr
        (fun y hy => by simp [hall y (List.mem_cons_of_mem x hy)])
    rw [htw, hdw, bandsSpec_nil]

theorem bandsSpec_append_sep {β : Type} (p : β → Bool) (m : List β) (r : β)
    (l : List β) (hall : ∀ x ∈ m, p x = false) (hr : p r = true) (hne : m ≠ []) :
    bandsSpec p (m ++ r :: l) = m :: bandsSpec p l := by
  match m, hne with
  | x :: m2, _ =>
    have hx : p x = false := hall x (List.mem_cons_self x m2)
    have hall2 : ∀ y ∈ m2, p y = false :=
      fun y hy => hall y (List.mem_cons_of_mem x hy)
    have hq : ∀ y ∈ m2, (fun y => !(p y)) y = true :=
      fun y hy => by simp [hall2 y hy]
    simp only [List.cons_append]
    rw [bandsSpec_cons_neg p x (m2 ++ r :: l) hx]
    have htw : (m2 ++ r :: l).takeWhile (fun y => !(p y)) = m2 := by
      rw [takeWhile_append_all _ m2 (r :: l) hq, List.takeWhile_cons,
        if_neg (by simp [hr]), List.append_nil]
    have hdw : (m2 ++ r :: l).dropWhile (fun y => !(p y)) = r :: l := by
      rw [dropWhile_append_all _ m2 (r :: l) hq, List.dropWhile_cons,
        if_neg (by simp [hr])]
    rw [htw, hdw, bandsSpec_cons_pos p r l hr]

theorem scanRuns_eq_bandsSpec {β : Type} (p : β → Bool) :
    ∀ (l pending : List β), (∀ x ∈ pending, p x = false) →
      scanRuns p pending l = bandsSpec p (pending ++ l) := by
  intro l
  induction l with
  | nil =>
    intro pending hall
    rw [List.append_nil]
    cases pending with
    | nil => rw [bandsSpec_nil]; rfl
    | cons y ys =>
      simp only [scanRuns]
      rw [if_neg (by simp), bandsSpec_all_neg p (y :: ys) hall (by simp)]
  | cons r l ih =>
    intro pending hall
    simp only [scanRuns]
    by_cases hp : p r
    · rw [if_pos hp]
      cases pending with
      | nil =>
        rw [if_pos (show ([] : List β).isEmpty = true from rfl), List.nil_append,
          bandsSpec_cons_pos p r l hp, ih [] (by simp), List.nil_append]
      | cons y ys =>
        rw [if_neg (by simp),
          bandsSpec_append_sep p (y :: ys) r l hall hp (by simp),
          ih [] (by simp), List.nil_append]
    · rw [if_neg hp, ih (pending ++ [r]) ?hall2, List.append_assoc]
      · rfl
      case hall2 =>
        intro x hx
        rcases List.mem_append.mp hx with hx | hx
        · exact hall x hx
        · rw [List.mem_singleton.mp hx]
          exact Bool.eq_false_iff.mpr hp

theorem vsplitGo_eq (img : Image) (e : RGBA → Bool)
    (hrect : ∀ row ∈ img.pixels, row.length = img.width) :
    ∀ (m k : Nat), k + m = img.pixels.length →
      ((vsplitGo img e (img.pixels.drop k) k none).map Image.pixels =
        scanRuns (rowEmpty e) [] (img.pixels.drop k))
    ∧ (∀ t, t < k →
        (vsplitGo img e (img.pixels.drop k) k (some (t, k - 1))).map Image.pixels =
          scanRuns (rowEmpty e) ((img.pixels.take k).drop t) (img.pixels.drop k)) := by
  intro m
  induction m with
  | zero =>
    intro k hk
    have hdropnil : img.pixels.drop k = [] := by
      have hkl : k = img.pixels.length := by omega
      rw [hkl, List.drop_length]
    refine ⟨by rw [hdropnil]; rfl, ?_⟩
    intro t ht
    rw [hdropnil]
    simp only [vsplitGo, List.map_cons, List.map_nil]
    rw [cut_full img t (k - 1) hrect, show k - 1 + 1 = k by omega]
    have hne : (img.pixels.take k).drop t ≠ [] := by
      intro hnil
      have hlen := congrArg List.length hnil
      rw [List.length_drop, List.length_take] at hlen
      simp only [List.length_nil] at hlen
      omega
    simp only [scanRuns]
    rw [if_neg (fun hiE => hne (List.isEmpty_iff.mp hiE))]
  | succ m ih =>
    intro k hk
    have hklen : k < img.pixels.length := by omega
    obtain ⟨row, hrowget, hdrop⟩ :
        ∃ row, img.pixels[k]? = some row ∧
          img.pixels.drop k = row :: img.pixels.drop (k + 1) :=
      ⟨img.pixels[k], List.getElem?_eq_getElem hklen,
        List.drop_eq_getElem_cons hklen⟩
    have htake : img.pixels.take (k + 1) = img.pixels.take k ++ [row] := by
      rw [List.take_succ, hrowget]
      rfl
    obtain ⟨ihn, ihs⟩ := ih (k + 1) (by omega)
    have hlk : (img.pixels.take k).length = k := by
      rw [List.length_take]
      omega
    have hpend1 : (img.pixels.take (k + 1)).drop k = [row] := by
      rw [htake, List.drop_append_eq_append_drop, hlk,
        show k - k = 0 by omega, List.drop_zero]
      have hdk : (img.pixels.take k).drop k = [] := by
        simp [List.drop_take]
      rw [hdk, List.nil_append]
    have hsucc1 : k + 1 - 1 = k := by omega
    have hne : ∀ t, t < k → (img.pixels.take k).drop t ≠ [] := by
      intro t ht hnil
      have hlen := congrArg List.length hnil
      rw [List.length_drop, List.length_take] at hlen
      simp only [List.length_nil] at hlen
      omega
    by_cases hrow : rowEmpty e row = true
    · refine ⟨?_, ?_⟩
      · rw [hdrop]
        simp only [vsplitGo, scanRuns]
        rw [if_pos hrow, if_pos hrow,
          if_pos (show ([] : List (List RGBA)).isEmpty = true from rfl)]
        exact ihn
      · intro t ht
        rw [hdrop]
        simp only [vsplitGo, scanRuns]
        rw [if_pos hrow, if_pos hrow,
          if_neg (fun hiE => hne t ht (List.isEmpty_iff.mp hiE))]
        rw [List.map_cons, cut_full img t (k - 1) hrect,
          show k - 1 + 1 = k by omega, ihn]
    · refine ⟨?_, ?_⟩
      · rw [hdrop]
        simp only [vsplitGo, scanRuns]
        rw [if_neg hrow, if_neg hrow]
        have hs := ihs k (by omega)
        rw [hsucc1] at hs
        rw [hs, hpend1]
        rfl
      · intro t ht
        rw [hdrop]
        simp only [vsplitGo, scanRuns]
        rw [if_neg hrow, if_neg hrow]
        have hs := ihs t (by omega)
        rw [hsucc1] at hs
        rw [hs]
        have hpend2 : (img.pixels.take (k + 1)).drop t =
            (img.pixels.take k).drop t ++ [row] := by
          rw [htake, List.drop_append_eq_append_drop, hlk,
            show t - k = 0 by omega, List.drop_zero]
        rw [hpend2]

theorem bandsSpec_mem {β : Type} (p : β → Bool) :
    ∀ (n : Nat) (l : List β), l.length ≤ n →
      ∀ c ∈ bandsSpec p l, c ≠ [] ∧ ∀ x ∈ c, x ∈ l := by
  intro n
  induction n with
  | zero =>
    intro l hl c hc
    have hnil : l = [] := List.length_eq_zero.mp (by omega)
    rw [hnil, bandsSpec_nil] at hc
    cases hc
  | succ n ih =>
    intro l hl c hc
    cases l with
    | nil =>
      rw [bandsSpec_nil] at hc
      cases hc
    | cons x rest =>
      simp only [List.length_cons] at hl
      by_cases hx : p x = true
      · rw [bandsSpec_cons_pos p x rest hx] at hc
        obtain ⟨h1, h2⟩ := ih rest (by omega) c hc
        exact ⟨h1, fun y hy => List.mem_cons_of_mem x (h2 y hy)⟩
      · have hxF : p x = false := Bool.eq_false_iff.mpr hx
        rw [bandsSpec_cons_neg p x rest hxF] at hc
        rcases List.mem_cons.mp hc with hc | hc
        · subst hc
          refine ⟨by simp, ?_⟩
          intro y hy
          rcases List.mem_cons.mp hy with hy | hy
          · rw [hy]
            exact List.mem_cons_self x rest
          · exact List.mem_cons_of_mem x ((List.takeWhile_sublist _).subset hy)
        · have hlen : (rest.dropWhile (fun y => !(p y))).length ≤ n := by
            have := length_dropWhile_le (fun y => !(p y)) rest
            omega
          obtain ⟨h1, h2⟩ := ih (rest.dropWhile (fun y => !(p y))) hlen c hc
          exact ⟨h1, fun y hy =>
            List.mem_cons_of_mem x ((List.dropWhile_sublist _).subset (h2 y hy))⟩

/-- C7: for every rectangular pixel grid and emptiness predicate, `vsplit`
returns exactly the maximal contiguous bands of non-empty rows (the
claim-side `bandsSpec`), in top-to-bottom order; concatenating the bands'
rows reconstructs the original rows with every fully-empty row removed; and
every band is non-empty and made of original full-width rows. -/
theorem c7_vsplit_bands (img : Image) (e : RGBA → Bool)
    (hrect : ∀ row ∈ img.pixels, row.length = img.width) :
    ((img.vsplit e).map Image.pixels = bandsSpec (rowEmpty e) img.pixels)
  ∧ (((img.vsplit e).map Image.pixels).flatten =
      img.pixels.filter (fun r => !(rowEmpty e r)))
  ∧ (∀ part ∈ img.vsplit e, part.pixels ≠ [] ∧
      ∀ row ∈ part.pixels, row ∈ img.pixels ∧ row.length = img.width) := by
  have h0 := (vsplitGo_eq img e hrect img.pixels.length 0 (by omega)).1
  rw [List.drop_zero] at h0
  have hscan : scanRuns (rowEmpty e) [] img.pixels =
      bandsSpec (rowEmpty e) img.pixels := by
    rw [scanRuns_eq_bandsSpec (rowEmpty e) img.pixels [] (by simp),
      List.nil_append]
  have hmain : (img.vsplit e).map Image.pixels =
      bandsSpec (rowEmpty e) img.pixels := by
    show (vsplitGo img e img.pixels 0 none).map Image.pixels = _
    rw [h0, hscan]
  refine ⟨hmain, ?_, ?_⟩
  · have hvs : (img.vsplit e).map Image.pixels =
        scanRuns (rowEmpty e) [] img.pixels := h0
    rw [hvs, scanRuns_flatten, List.nil_append]
  · intro part hpart
    have hcmem : part.pixels ∈ bandsSpec (rowEmpty e) img.pixels := by
      rw [← hmain]
      exact List.mem_map_of_mem Image.pixels hpart
    obtain ⟨h1, h2⟩ := bandsSpec_mem (rowEmpty e) img.pixels.length img.pixels
      (le_refl _) part.pixels hcmem
    exact ⟨h1, fun row hrow => ⟨h2 row hrow, hrect row (h2 row hrow)⟩⟩

theorem c7_vsplit_bands_witness :
    (∀ row ∈ imgC5.pixels, row.length = imgC5.width)
  ∧ ((imgC5.vsplit emptyA).map Image.pixels).flatten =
      imgC5.pixels.filter (fun r => !(rowEmpty emptyA r)) :=
  ⟨by decide, (c7_vsplit_bands imgC5 emptyA (by decide)).2.1⟩

theorem c9_distinct_tasks_witness :
    ("abc" ∈ (["abc", "abc", "xyz"] : List String))
  ∧ (batchDTS [] (fun _ => Image.mk []) ["abc", "abc", "xyz"]).lookup "abc" =
      some (getDTS [] ((fun _ => Image.mk []) "abc")) :=
  ⟨by decide, (c9_distinct_tasks ["abc", "abc", "xyz"]).2.2.2.2 []
    (fun _ => Image.mk []) "abc" (by decide)⟩
